import Mathlib

/-!
Shallow embedding of the download-engine core of the otoshi launcher
(`src-tauri/src/services/download_manager.rs` and
`src-tauri/src/services/peer_cache_server.rs`), together with theorems
settling the specification claims about it.

Modelling conventions:
* Rust strings (`&str` / `String`) are modelled as lists of Unicode scalar
  values (`List Nat`); chunk payloads (`Vec<u8>`) as `List Nat` of byte
  values.  Machine integers (`u64`, `usize`) are modelled as `Nat`;
  `saturating_add` on `Nat` coincides with `+`.
* The filesystem is modelled as an association list from paths to file
  contents (for the depot cache) or to file lengths (for `.part` files).
  I/O never fails in the abstract filesystem, so the `Err` branches of the
  Rust code that arise only from failing syscalls are unreachable in the
  model; the `Result` shape is kept where a claim is about error behaviour.
* External library functions (SHA-256 from the `sha2` crate, zstd
  decompression, `reqwest::Url` parsing inside `peer_url_fingerprint`) are
  parameters of the model, supplied explicitly to each operation.
-/

namespace Otoshi

/-- A Rust string, as its list of Unicode scalar values. -/
abbrev Str := List Nat

/-- A byte buffer (`Vec<u8>`). -/
abbrev Bytes := List Nat

/-- Convert a Lean string literal to the `Str` model (used only to write
concrete inputs readably). -/
def strCodes (s : String) : Str := s.toList.map Char.toNat

/-- Rust `char::is_ascii_hexdigit`: `0-9`, `a-f`, `A-F`. -/
def isAsciiHexDigitCode (c : Nat) : Bool :=
  (48 ≤ c && c ≤ 57) || (97 ≤ c && c ≤ 102) || (65 ≤ c && c ≤ 70)

/-- Rust `char::to_ascii_lowercase`: maps `A`-`Z` to `a`-`z`, fixes the rest. -/
def asciiLowerChar (c : Nat) : Nat :=
  if 65 ≤ c && c ≤ 90 then c + 32 else c

/-- Rust `str::to_ascii_lowercase`, character by character. -/
def asciiLowerStr (s : Str) : Str := s.map asciiLowerChar

/-- Rust `str::eq_ignore_ascii_case`. -/
def eqIgnoreAsciiCase (a b : Str) : Bool := asciiLowerStr a = asciiLowerStr b

/-- Rust `char::is_whitespace` (the Unicode `White_Space` code points);
used by `str::trim`. -/
def isRustWhitespace (c : Nat) : Bool :=
  c = 9 || c = 10 || c = 11 || c = 12 || c = 13 || c = 32 || c = 133 ||
  c = 160 || c = 5760 || (8192 ≤ c && c ≤ 8202) || c = 8232 || c = 8233 ||
  c = 8239 || c = 8287 || c = 12288

/-- Rust `str::trim`: drop whitespace from both ends. -/
def trimStr (s : Str) : Str :=
  ((s.dropWhile isRustWhitespace).reverse.dropWhile isRustWhitespace).reverse

/-! ## Bandwidth throttler (`BandwidthThrottler`, download_manager.rs:405-452)

The mutable state shared between `acquire`, `set_limit` and the reset task
is the single counter `current_window_bytes`, protected by a mutex.  The
counter is mutated only at two places: a successful reservation inside
`acquire` (guarded by `*current + bytes <= max`), and the once-per-second
reset to `0` performed by `start_reset_task`.  A throttler history is a
sequence of such counter mutations; a blocked `acquire` does not touch the
counter (it drops the lock and sleeps). -/

/-- One counter mutation of the throttler. -/
inductive ThrotEvent
  /-- A call to `acquire bytes` observes the counter; it reserves only when
  `current + bytes ≤ max` holds at that instant, otherwise it leaves the
  counter unchanged (and sleeps). -/
  | acquire (bytes : Nat)
  /-- The background reset task zeroes the window counter. -/
  | reset
deriving DecidableEq

/-- The effect of one event on `current_window_bytes`, with the limit
`max_bps` fixed at `max` (`BandwidthThrottler::acquire` rereads the limit
each loop iteration; we model a phase during which `set_limit` is not
called).  `max = 0` makes `acquire` return immediately without reserving. -/
def throtApply (max : Nat) (current : Nat) : ThrotEvent → Nat
  | .acquire bytes =>
      if max = 0 then current
      else if current + bytes ≤ max then current + bytes
      else current
  | .reset => 0

/-- Counter value after a sequence of mutations starting from a fresh
window (`current_window_bytes = 0`). -/
def throtRun (max : Nat) (events : List ThrotEvent) : Nat :=
  events.foldl (throtApply max) 0

/-- Total bytes granted to callers of `acquire` by a sequence of events
(a reservation grants exactly its `bytes` argument). -/
def throtGranted (max : Nat) (events : List ThrotEvent) : Nat :=
  (events.foldl
    (fun acc ev =>
      let current := acc.1
      match ev with
      | .acquire bytes =>
          if max = 0 then acc
          else if current + bytes ≤ max then (current + bytes, acc.2 + bytes)
          else acc
      | .reset => (0, acc.2))
    (0, 0)).2

/-- One iteration of the `acquire` busy-wait loop, given the counter values
the loop observes at its successive lock acquisitions (other tasks and the
reset task may change the counter between iterations).  Returns `true` iff
`acquire n` returns within the observed iterations, with the limit fixed at
`m`. -/
def acquireReturns (m n : Nat) : List Nat → Bool
  | [] => false
  | current :: rest =>
      if m = 0 then true
      else if current + n ≤ m then true
      else acquireReturns m n rest

/-- Helper: one throttler event keeps the counter within the limit. -/
theorem throtApply_le_max (max c : Nat) (hc : c ≤ max) (ev : ThrotEvent) :
    throtApply max c ev ≤ max := by
  cases ev with
  | acquire bytes =>
      unfold throtApply
      by_cases h0 : max = 0
      · simp [h0] at hc ⊢; omega
      · simp [h0]
        split <;> omega
  | reset => simp [throtApply]

/-- Helper: folding throttler events preserves the counter bound. -/
theorem throtFold_le_max (max : Nat) (events : List ThrotEvent) :
    ∀ c, c ≤ max → events.foldl (throtApply max) c ≤ max := by
  induction events with
  | nil => intro c hc; simpa using hc
  | cons ev rest ih =>
      intro c hc
      simpa using ih (throtApply max c ev) (throtApply_le_max max c hc ev)

/-- Helper: with no reset in the window, the granted total tracks the
counter exactly. -/
theorem throtGranted_fold_inv (max : Nat) (events : List ThrotEvent)
    (hnr : ThrotEvent.reset ∉ events) :
    ∀ c g, c ≤ max →
      (events.foldl
        (fun acc ev =>
          let current := acc.1
          match ev with
          | .acquire bytes =>
              if max = 0 then acc
              else if current + bytes ≤ max then (current + bytes, acc.2 + bytes)
              else acc
          | .reset => (0, acc.2))
        (c, g)).2 ≤ g + (max - c) := by
  induction events with
  | nil => intro c g hc; simp only [List.foldl_nil]; omega
  | cons ev rest ih =>
      intro c g hc
      have hev : ev ≠ ThrotEvent.reset := by
        intro h; exact hnr (h ▸ List.mem_cons_self ev rest)
      have hnr' : ThrotEvent.reset ∉ rest := fun h => hnr (List.mem_cons_of_mem ev h)
      cases ev with
      | reset => exact absurd rfl hev
      | acquire bytes =>
          by_cases h0 : max = 0
          · simpa [h0] using ih hnr' c g hc
          · by_cases hle : c + bytes ≤ max
            · have := ih hnr' (c + bytes) (g + bytes) hle
              simp only [List.foldl_cons, h0, hle, if_false, if_true, ite_true, ite_false]
              simp [h0, hle] at this ⊢
              omega
            · have := ih hnr' c g hc
              simp [h0, hle] at this ⊢
              omega

/-- C6: while the limit is held at a fixed positive `max`, every
interleaving of successful `acquire` reservations and window resets keeps
`current_window_bytes ≤ max`, and the bytes granted to writers within a
single window (no reset in between) total at most `max`. -/
theorem throttler_window_never_exceeds_limit (max : Nat) (hmax : 0 < max) :
    (∀ events : List ThrotEvent, throtRun max events ≤ max) ∧
    (∀ events : List ThrotEvent, ThrotEvent.reset ∉ events →
      throtGranted max events ≤ max) := by
  constructor
  · intro events
    exact throtFold_le_max max events 0 (Nat.zero_le max)
  · intro events hnr
    have h := throtGranted_fold_inv max events hnr 0 0 (Nat.zero_le max)
    unfold throtGranted
    omega

/-- Witness for `throttler_window_never_exceeds_limit` at `max = 10` with a
concrete event interleaving. -/
theorem throttler_window_never_exceeds_limit_witness :
    throtRun 10 [ThrotEvent.acquire 4, ThrotEvent.acquire 9, ThrotEvent.reset,
      ThrotEvent.acquire 7] ≤ 10 ∧
    throtGranted 10 [ThrotEvent.acquire 4, ThrotEvent.acquire 9,
      ThrotEvent.acquire 6] ≤ 10 := by
  have h := throttler_window_never_exceeds_limit 10 (by decide)
  exact ⟨h.1 _, h.2 _ (by decide)⟩

/-- C8: with the limit fixed at a positive `m`, the `acquire n` busy-wait
loop returns once it observes a fresh window whenever `n ≤ m`, but for
`n > m` the headroom test `current + n ≤ m` can never hold, so the loop
never returns however many iterations it runs and whatever counter values
it observes. -/
theorem acquire_return_dichotomy (m n : Nat) (hm : 0 < m) :
    (n ≤ m → ∀ obs : List Nat, acquireReturns m n (obs ++ [0]) = true) ∧
    (m < n → ∀ obs : List Nat, acquireReturns m n obs = false) := by
  constructor
  · intro hn obs
    induction obs with
    | nil => simp [acquireReturns]; omega
    | cons c rest ih =>
        unfold acquireReturns
        by_cases hle : c + n ≤ m <;> simp [Nat.pos_iff_ne_zero.mp hm, hle, ih]
  · intro hn obs
    induction obs with
    | nil => rfl
    | cons c rest ih =>
        unfold acquireReturns
        have hle : ¬ c + n ≤ m := by omega
        simp [Nat.pos_iff_ne_zero.mp hm, hle, ih]

/-- Witness for `acquire_return_dichotomy` at `m = 5`: `acquire 3` returns
after a reset, `acquire 7` never returns. -/
theorem acquire_return_dichotomy_witness :
    acquireReturns 5 3 ([9] ++ [0]) = true ∧
    acquireReturns 5 7 [0, 2, 0] = false := by
  refine ⟨(acquire_return_dichotomy 5 3 (by decide)).1 (by decide) [9], ?_⟩
  exact (acquire_return_dichotomy 5 7 (by decide)).2 (by decide) [0, 2, 0]

/-! ## Depot cache (`sanitize_hash`, `DepotCache`, download_manager.rs:455-464, 727-832)

The depot root holds one file per chunk at `<root>/<prefix>/<hash>.bin`.
Every operation resolves its path through `chunk_path`, so the filesystem
under the root is modelled as an association list from depot paths to file
contents.  `std::fs` calls never fail in the abstract filesystem; the
`Result` shape of the Rust API is kept (`Except`) because claims speak
about error behaviour.  SHA-256 (`compute_sha256_hex`, from the external
`sha2` crate) is a parameter `sha` of the operations that hash. -/

/-- Rust `sanitize_hash` (download_manager.rs:455-464): trim, lowercase, then
require at least 8 characters, all ASCII hex digits.  (Rust checks
`normalized.len() < 8` in bytes; on every string that passes the
all-hex-digit check the byte length equals the character count, and both
models reject otherwise, so the observable behaviour coincides.  The Rust
`normalized` binding is inlined.) -/
def sanitize_hash (hash : Str) : Option Str :=
  if (asciiLowerStr (trimStr hash)).length < 8 then none
  else if (asciiLowerStr (trimStr hash)).all isAsciiHexDigitCode then
    some (asciiLowerStr (trimStr hash))
  else none

/-- A path below the depot root: fanout directory plus file name. -/
structure DepotPath where
  fanout : Str
  fileName : Str
deriving DecidableEq

/-- Rust `DEPOTCACHE_PREFIX_LEN` (download_manager.rs:39). -/
def DEPOTCACHE_PREFIX_LEN : Nat := 2

/-- Rust `DepotCache::chunk_path` (download_manager.rs:740-745):
`<root>/<normalized[..min 2 len]>/<normalized>.bin`. -/
def chunk_path (hash : Str) : Option DepotPath :=
  match sanitize_hash hash with
  | none => none
  | some normalized =>
      let prefixLen := min DEPOTCACHE_PREFIX_LEN normalized.length
      some ⟨normalized.take prefixLen, normalized ++ strCodes ".bin"⟩

/-- The files below the depot root. -/
abbrev DepotFs := List (DepotPath × Bytes)

def depotLookup (fs : DepotFs) (p : DepotPath) : Option Bytes :=
  (fs.find? (fun e => e.1 == p)).map (·.2)

def depotRemove (fs : DepotFs) (p : DepotPath) : DepotFs :=
  fs.filter (fun e => !(e.1 == p))

/-- Writing the temp file and renaming it over `p` replaces whatever was
at `p`. -/
def depotInsert (fs : DepotFs) (p : DepotPath) (d : Bytes) : DepotFs :=
  (p, d) :: depotRemove fs p

/-- Errors of the depot operations.  In the abstract filesystem no
`std::fs` call fails, so no operation below ever constructs one. -/
inductive DepotErr
  | ioErr
deriving DecidableEq

/-- Rust `DepotCache::has_candidate` (download_manager.rs:747-754): file exists
at the computed path with exact length `size`. -/
def has_candidate (fs : DepotFs) (hash : Str) (size : Nat) : Bool :=
  match chunk_path hash with
  | none => false
  | some path =>
      match depotLookup fs path with
      | some data => data.length == size
      | none => false

/-- Rust `DepotCache::load_valid_chunk` (download_manager.rs:756-788).  The Rust
code checks `metadata.len() == size`, reads the file, re-checks
`data.len() == size` (the same value in the model) and compares
`compute_sha256_hex(&data).eq_ignore_ascii_case(hash)`; on mismatch it
removes the entry.  Returns the possibly-updated filesystem together with
the loaded bytes. -/
def load_valid_chunk (sha : Bytes → Str) (fs : DepotFs) (hash : Str)
    (size : Nat) : Except DepotErr (DepotFs × Option Bytes) :=
  match chunk_path hash with
  | none => .ok (fs, none)
  | some path =>
      match depotLookup fs path with
      | none => .ok (fs, none)
      | some data =>
          if data.length ≠ size then .ok (fs, none)
          else if eqIgnoreAsciiCase (sha data) hash then .ok (fs, some data)
          else .ok (depotRemove fs path, none)

/-- Rust `DepotCache::store_chunk` (download_manager.rs:790-832): no path →
`Ok(())`; existing file of identical length → no-op `Ok(())`; otherwise
write a temp file and rename it over the final path (always succeeds in
the abstract filesystem). -/
def store_chunk (fs : DepotFs) (hash : Str) (data : Bytes) :
    Except DepotErr DepotFs :=
  match chunk_path hash with
  | none => .ok fs
  | some path =>
      match depotLookup fs path with
      | some existing =>
          if existing.length == data.length then .ok fs
          else .ok (depotInsert fs path data)
      | none => .ok (depotInsert fs path data)

/-- A lowercase hex digit (`0-9a-f`); the character set the spec demands
for depot hashes. -/
def isLowerHexCode (c : Nat) : Bool :=
  (48 ≤ c && c ≤ 57) || (97 ≤ c && c ≤ 102)

/-- Modelled from the spec: "Fails with `InvalidHash` if the hash is not 64
lowercase hex chars" — the hash shape the spec says is the only accepted
one. -/
def spec64LowerHex (h : Str) : Bool :=
  h.length == 64 && h.all isLowerHexCode

/-- Helper: hex digits are not whitespace. -/
theorem hexCode_not_whitespace (c : Nat) (h : isAsciiHexDigitCode c = true) :
    isRustWhitespace c = false := by
  simp [isAsciiHexDigitCode] at h
  simp [isRustWhitespace]
  omega

/-- Helper: `dropWhile` is the identity when no element satisfies the
predicate. -/
theorem dropWhile_eq_self_of_none (p : Nat → Bool) (l : List Nat)
    (h : ∀ c ∈ l, p c = false) : l.dropWhile p = l := by
  cases l with
  | nil => rfl
  | cons a t => simp [List.dropWhile_cons, h a (List.mem_cons_self a t)]

/-- Helper: trimming an all-hex string changes nothing. -/
theorem trimStr_eq_self_of_hex (s : Str) (h : s.all isAsciiHexDigitCode = true) :
    trimStr s = s := by
  have hmem : ∀ c ∈ s, isRustWhitespace c = false := by
    intro c hc
    exact hexCode_not_whitespace c ((List.all_eq_true.mp h) c hc)
  unfold trimStr
  rw [dropWhile_eq_self_of_none _ _ hmem,
      dropWhile_eq_self_of_none _ _ (fun c hc => hmem c (List.mem_reverse.mp hc)),
      List.reverse_reverse]

/-- Helper: ASCII lowercasing is idempotent on a character. -/
theorem asciiLowerChar_idem (c : Nat) :
    asciiLowerChar (asciiLowerChar c) = asciiLowerChar c := by
  unfold asciiLowerChar
  split_ifs with h1 h2
  · simp_all; omega
  · rfl
  · rfl

/-- Helper: ASCII lowercasing is idempotent on a string. -/
theorem asciiLowerStr_idem (s : Str) :
    asciiLowerStr (asciiLowerStr s) = asciiLowerStr s := by
  unfold asciiLowerStr
  rw [List.map_map]
  exact List.map_congr_left fun c _ => asciiLowerChar_idem c

/-- Helper: lowercasing preserves hex-digit-ness in both directions. -/
theorem isHex_asciiLowerChar (c : Nat) :
    isAsciiHexDigitCode (asciiLowerChar c) = isAsciiHexDigitCode c := by
  rw [Bool.eq_iff_iff]
  unfold asciiLowerChar isAsciiHexDigitCode
  split_ifs with h1
  · simp_all; omega
  · simp_all

/-- Helper: lowercasing preserves the all-hex check. -/
theorem all_hex_asciiLowerStr (s : Str) :
    (asciiLowerStr s).all isAsciiHexDigitCode = s.all isAsciiHexDigitCode := by
  induction s with
  | nil => rfl
  | cons c t ih => simp [asciiLowerStr, isHex_asciiLowerChar] at ih ⊢; rw [ih]

/-- Helper: `sanitize_hash` on an all-hex string of length ≥ 8 lowercases
it. -/
theorem sanitize_hash_of_hex (s : Str) (hlen : 8 ≤ s.length)
    (hhex : s.all isAsciiHexDigitCode = true) :
    sanitize_hash s = some (asciiLowerStr s) := by
  unfold sanitize_hash
  rw [trimStr_eq_self_of_hex s hhex]
  have hlen' : ¬ (asciiLowerStr s).length < 8 := by
    simp [asciiLowerStr]; omega
  have hhex' : (asciiLowerStr s).all isAsciiHexDigitCode = true := by
    rw [all_hex_asciiLowerStr]; exact hhex
  simp [hlen', hhex']

/-- Helper: `sanitize_hash` is insensitive to the case of an all-hex
argument. -/
theorem sanitize_hash_lower (s : Str) (hlen : 8 ≤ s.length)
    (hhex : s.all isAsciiHexDigitCode = true) :
    sanitize_hash (asciiLowerStr s) = sanitize_hash s := by
  have h1 := sanitize_hash_of_hex s hlen hhex
  have h2 := sanitize_hash_of_hex (asciiLowerStr s)
    (by simpa [asciiLowerStr] using hlen)
    (by rw [all_hex_asciiLowerStr]; exact hhex)
  rw [h1, h2, asciiLowerStr_idem]

/-- Helper: `eqIgnoreAsciiCase` is insensitive to lowering its second
argument. -/
theorem eqIgnoreAsciiCase_lower_right (a b : Str) :
    eqIgnoreAsciiCase a (asciiLowerStr b) = eqIgnoreAsciiCase a b := by
  simp [eqIgnoreAsciiCase, asciiLowerStr_idem]

/-- Helper: on two strings fixed by lowercasing, case-insensitive equality
is equality. -/
theorem eqIgnoreAsciiCase_eq_of_lower (a b : Str) (ha : asciiLowerStr a = a)
    (hb : asciiLowerStr b = b) : eqIgnoreAsciiCase a b = true ↔ a = b := by
  simp [eqIgnoreAsciiCase, ha, hb]

/-- Helper: looking up a freshly inserted depot entry. -/
theorem depotLookup_insert (fs : DepotFs) (p : DepotPath) (d : Bytes) :
    depotLookup (depotInsert fs p d) p = some d := by
  simp [depotLookup, depotInsert, List.find?]

/-- C9: depot cache addressing ignores ASCII case in the hash argument.
For every hash of at least 8 hex digits, `chunk_path`, `has_candidate`,
`load_valid_chunk` and `store_chunk` behave identically on the hash and on
its lowercased form, and `load_valid_chunk` accepts stored content whose
digest matches the argument hash ignoring ASCII case. -/
theorem depot_chunk_addressing_case_insensitive (h : Str)
    (hlen : 8 ≤ h.length) (hhex : h.all isAsciiHexDigitCode = true) :
    chunk_path (asciiLowerStr h) = chunk_path h ∧
    (∀ fs size, has_candidate fs (asciiLowerStr h) size =
      has_candidate fs h size) ∧
    (∀ sha fs size, load_valid_chunk sha fs (asciiLowerStr h) size =
      load_valid_chunk sha fs h size) ∧
    (∀ fs data, store_chunk fs (asciiLowerStr h) data =
      store_chunk fs h data) ∧
    (∀ sha fs size d path, chunk_path h = some path →
      depotLookup fs path = some d → d.length = size →
      eqIgnoreAsciiCase (sha d) h = true →
      load_valid_chunk sha fs h size = .ok (fs, some d)) := by
  have hcp : chunk_path (asciiLowerStr h) = chunk_path h := by
    unfold chunk_path
    rw [sanitize_hash_lower h hlen hhex]
  refine ⟨hcp, ?_, ?_, ?_, ?_⟩
  · intro fs size
    unfold has_candidate
    rw [hcp]
  · intro sha fs size
    unfold load_valid_chunk
    rw [hcp]
    simp only [eqIgnoreAsciiCase_lower_right]
  · intro fs data
    unfold store_chunk
    rw [hcp]
  · intro sha fs size d path hpath hlook hdlen hcase
    simp [load_valid_chunk, hpath, hlook, hdlen, hcase]

/-- Witness for `depot_chunk_addressing_case_insensitive` at the mixed-case
8-digit hash `AbCdEf01`. -/
theorem depot_chunk_addressing_case_insensitive_witness :
    chunk_path (asciiLowerStr (strCodes "AbCdEf01")) =
      chunk_path (strCodes "AbCdEf01") ∧
    has_candidate [] (asciiLowerStr (strCodes "AbCdEf01")) 3 =
      has_candidate [] (strCodes "AbCdEf01") 3 := by
  have h := depot_chunk_addressing_case_insensitive (strCodes "AbCdEf01")
    (by decide) (by decide)
  exact ⟨h.1, h.2.1 [] 3⟩

/-- C7 counterexample: the claim says every depot operation fails with an
`InvalidHash` error when the hash is not exactly 64 lowercase hex
characters.  The 10-character uppercase hash `ABCDEF0123` is not of that
shape, yet `store_chunk` succeeds and stores an entry (and `has_candidate`
then finds it); and on the truly malformed hash `zz`, `store_chunk` and
`load_valid_chunk` silently return `Ok` instead of failing. -/
theorem depot_invalid_hash_counterexample :
    spec64LowerHex (strCodes "ABCDEF0123") = false ∧
    store_chunk [] (strCodes "ABCDEF0123") [7] =
      .ok [(⟨strCodes "ab", strCodes "abcdef0123.bin"⟩, [7])] ∧
    has_candidate [(⟨strCodes "ab", strCodes "abcdef0123.bin"⟩, [7])]
      (strCodes "ABCDEF0123") 1 = true ∧
    spec64LowerHex (strCodes "zz") = false ∧
    store_chunk [] (strCodes "zz") [7] = .ok [] ∧
    load_valid_chunk (fun _ => []) [] (strCodes "zz") 1 = .ok ([], none) :=
  ⟨by decide, rfl, by decide, by decide, rfl, rfl⟩

/-- C7 as amended: depot operations never fail on a malformed hash.
`sanitize_hash` rejects exactly the hashes whose trimmed form is shorter
than 8 characters or contains a non-hex character (uppercase hex of any
length ≥ 8 is accepted after lowercasing); on a rejected hash,
`has_candidate` reports absent, `load_valid_chunk` returns `Ok(None)` and
`store_chunk` silently no-ops with `Ok`. -/
theorem depot_invalid_hash_silent_noop (h : Str) :
    (sanitize_hash h = none ↔
      ((trimStr h).length < 8 ∨ (trimStr h).all isAsciiHexDigitCode = false)) ∧
    (sanitize_hash h = none →
      ∀ sha fs size data,
        has_candidate fs h size = false ∧
        load_valid_chunk sha fs h size = .ok (fs, none) ∧
        store_chunk fs h data = .ok fs) := by
  constructor
  · have hlen : (asciiLowerStr (trimStr h)).length = (trimStr h).length := by
      simp [asciiLowerStr]
    have hall := all_hex_asciiLowerStr (trimStr h)
    unfold sanitize_hash
    split_ifs with h1 h2
    · simp only [hlen] at h1
      simp [h1]
    · simp only [hlen] at h1
      simp only [hall] at h2
      simp [h1, h2]
    · simp only [hlen] at h1
      simp only [hall, Bool.not_eq_true] at h2
      simp [h1, h2]
  · intro hnone sha fs size data
    have hcp : chunk_path h = none := by simp [chunk_path, hnone]
    exact ⟨by simp [has_candidate, hcp], by simp [load_valid_chunk, hcp],
      by simp [store_chunk, hcp]⟩

/-- Witness for `depot_invalid_hash_silent_noop` at the malformed hash
`zz`. -/
theorem depot_invalid_hash_silent_noop_witness :
    has_candidate [] (strCodes "zz") 1 = false ∧
    load_valid_chunk (fun _ => []) [] (strCodes "zz") 1 = .ok ([], none) ∧
    store_chunk [] (strCodes "zz") [7] = .ok [] :=
  (depot_invalid_hash_silent_noop (strCodes "zz")).2 (by decide)
    (fun _ => []) [] 1 [7]

/-- A stand-in content digest used to exhibit concrete depot states:
64 copies of a decimal digit derived from the first byte (injective on the
buffers appearing in the counterexample, and always 64 lowercase hex). -/
def headDigestHex (d : Bytes) : Str := List.replicate 64 (48 + d.headD 0 % 10)

/-- C3 counterexample: the round-trip `store(h, b); load(h, |b|) = Some b`
fails when the depot already holds a same-length entry with different
content at `h`'s path: `store_chunk` no-ops (its length check passes), and
the following `load_valid_chunk` detects the digest mismatch, deletes the
entry and reports absent.  Here `b = [1]`, `h` its digest, and the
pre-existing entry is `[2]`. -/
theorem depot_store_load_roundtrip_counterexample :
    store_chunk
        [(⟨List.replicate 2 49, List.replicate 64 49 ++ strCodes ".bin"⟩, [2])]
        (headDigestHex [1]) [1] =
      .ok [(⟨List.replicate 2 49, List.replicate 64 49 ++ strCodes ".bin"⟩, [2])] ∧
    load_valid_chunk headDigestHex
        [(⟨List.replicate 2 49, List.replicate 64 49 ++ strCodes ".bin"⟩, [2])]
        (headDigestHex [1]) 1 =
      .ok ([], none) :=
  ⟨rfl, rfl⟩

/-- C3 as amended: for a lowercase-hex digest `h = sha b` (SHA-256 hex is
lowercase), `store(h, b)` followed by `load(h, |b|)` returns `Some b`
provided any same-length entry already at `h`'s path is `b` itself — the
pre-existing corrupt same-length entry of the counterexample is the only
obstruction.  In general `load(h, size)` returns bytes `d` iff the entry
file exists with content `d`, its length equals `size`, and its digest
equals `h`; on a digest mismatch it deletes the entry and reports
absent. -/
theorem depot_store_load_contract (sha : Bytes → Str) (h : Str)
    (path : DepotPath) (hcp : chunk_path h = some path)
    (hlow : asciiLowerStr h = h)
    (hshaLow : ∀ d, asciiLowerStr (sha d) = sha d) :
    (∀ fs b, sha b = h →
      (∀ c, depotLookup fs path = some c → c.length = b.length → c = b) →
      ∃ fs', store_chunk fs h b = .ok fs' ∧
        load_valid_chunk sha fs' h b.length = .ok (fs', some b)) ∧
    (∀ fs size d,
      load_valid_chunk sha fs h size = .ok (fs, some d) ↔
        (depotLookup fs path = some d ∧ d.length = size ∧ sha d = h)) ∧
    (∀ fs size d, depotLookup fs path = some d → d.length = size →
      sha d ≠ h →
      load_valid_chunk sha fs h size = .ok (depotRemove fs path, none)) := by
  refine ⟨?_, ?_, ?_⟩
  · intro fs b hb hclean
    have hcase : eqIgnoreAsciiCase (sha b) h = true := by
      rw [eqIgnoreAsciiCase_eq_of_lower _ _ (hshaLow b) hlow]
      exact hb
    cases hfs : depotLookup fs path with
    | none =>
        refine ⟨depotInsert fs path b, ?_, ?_⟩
        · simp [store_chunk, hcp, hfs]
        · simp [load_valid_chunk, hcp, depotLookup_insert, hcase]
    | some c =>
        by_cases hlc : c.length = b.length
        · have hcb : c = b := hclean c hfs hlc
          subst hcb
          refine ⟨fs, ?_, ?_⟩
          · simp [store_chunk, hcp, hfs]
          · simp [load_valid_chunk, hcp, hfs, hcase]
        · refine ⟨depotInsert fs path b, ?_, ?_⟩
          · simp [store_chunk, hcp, hfs, hlc]
          · simp [load_valid_chunk, hcp, depotLookup_insert, hcase]
  · intro fs size d
    constructor
    · intro hload
      cases hfs : depotLookup fs path with
      | none => simp [load_valid_chunk, hcp, hfs] at hload
      | some data =>
          by_cases hds : data.length = size
          · by_cases hcase : eqIgnoreAsciiCase (sha data) h = true
            · have hdd : data = d := by
                simp [load_valid_chunk, hcp, hfs, hds, hcase] at hload
                exact hload
              subst hdd
              refine ⟨rfl, hds, ?_⟩
              exact (eqIgnoreAsciiCase_eq_of_lower _ _ (hshaLow data) hlow).mp
                hcase
            · have hcf : eqIgnoreAsciiCase (sha data) h = false := by
                rw [Bool.eq_false_iff]; exact hcase
              simp [load_valid_chunk, hcp, hfs, hds, hcf] at hload
          · simp [load_valid_chunk, hcp, hfs, hds] at hload
    · rintro ⟨hfs, hds, hdh⟩
      have hcase : eqIgnoreAsciiCase (sha d) h = true := by
        rw [eqIgnoreAsciiCase_eq_of_lower _ _ (hshaLow d) hlow]
        exact hdh
      simp [load_valid_chunk, hcp, hfs, hds, hcase]
  · intro fs size d hfs hds hdh
    have hcase : eqIgnoreAsciiCase (sha d) h = false := by
      rw [Bool.eq_false_iff]
      intro hc
      exact hdh ((eqIgnoreAsciiCase_eq_of_lower _ _ (hshaLow d) hlow).mp hc)
    simp [load_valid_chunk, hcp, hfs, hds, hcase]

/-- Witness for `depot_store_load_contract`: storing `[1]` under its digest
into an empty depot and loading it back returns `[1]`. -/
theorem depot_store_load_contract_witness :
    ∃ fs', store_chunk [] (headDigestHex [1]) [1] = .ok fs' ∧
      load_valid_chunk headDigestHex fs' (headDigestHex [1]) 1 =
        .ok (fs', some [1]) := by
  have hshaLow : ∀ d, asciiLowerStr (headDigestHex d) = headDigestHex d := by
    intro d
    unfold headDigestHex asciiLowerStr
    rw [List.map_replicate]
    have h1 : asciiLowerChar (48 + d.headD 0 % 10) = 48 + d.headD 0 % 10 := by
      unfold asciiLowerChar
      have := Nat.mod_lt (d.headD 0) (by norm_num : (0:Nat) < 10)
      split_ifs with hcond
      · exfalso; simp at hcond; omega
      · rfl
    rw [h1]
  obtain ⟨hround, -, -⟩ := depot_store_load_contract headDigestHex
    (headDigestHex [1])
    ⟨List.replicate 2 49, List.replicate 64 49 ++ strCodes ".bin"⟩
    (by decide) (by decide) hshaLow
  have h := hround [] [1] rfl
    (fun c hc => absurd hc (by simp [depotLookup]))
  simpa using h

/-! ## Paths, manifests and the planner
(`build_download_plan`, `chunk_region_exists`, `is_safe_relative_path`,
`extract_zip_archive`; download_manager.rs:145-154, 2399-2517, 2635-2663)

Paths follow the Unix semantics of `std::path`: a path is an optional
leading `/` plus `/`-separated components.  Windows `Prefix` components do
not arise under Unix parsing; `is_safe_relative_path` rejects them exactly
like `RootDir`, which the model folds into the `absolute` flag. -/

/-- One `std::path::Component` of a relative part. -/
inductive PathComp
  | parentDir
  | curDir
  | normal (name : Str)
deriving DecidableEq

/-- Split a string at `/` (code 47); always returns at least one
segment. -/
def splitSlash : Str → List Str
  | [] => [[]]
  | c :: rest =>
      match splitSlash rest with
      | [] => [[c]]
      | seg :: t => if c == 47 then [] :: seg :: t else (c :: seg) :: t

/-- The components of `Path::new(s)`: empty segments vanish, `.` is
`CurDir`, `..` is `ParentDir`.  (Rust drops non-leading `CurDir`
components; keeping them changes neither `is_safe_relative_path`, which
ignores them, nor resolution, where they are no-ops.) -/
def parsePathComps (s : Str) : List PathComp :=
  (splitSlash s).filterMap fun seg =>
    if seg == [] then none
    else if seg == [46] then some .curDir
    else if seg == [46, 46] then some .parentDir
    else some (.normal seg)

/-- A `PathBuf`: absolute flag (leading `/`, i.e. `RootDir`) plus
components. -/
structure RPath where
  absolute : Bool
  comps : List PathComp
deriving DecidableEq

/-- Rust `Path::new` on a manifest string. -/
def pathOfStr (s : Str) : RPath := ⟨s.headD 0 == 47, parsePathComps s⟩

/-- An install directory is an absolute path of plain components. -/
def installPath (install : List Str) : RPath := ⟨true, install.map .normal⟩

/-- Rust `Path::join`: an absolute argument replaces the base. -/
def joinPath (base : RPath) (s : Str) : RPath :=
  if (pathOfStr s).absolute then pathOfStr s
  else ⟨base.absolute, base.comps ++ (pathOfStr s).comps⟩

/-- Rust `is_safe_relative_path` (download_manager.rs:145-154): false iff some
component is `Prefix`, `RootDir` or `ParentDir`. -/
def is_safe_relative_path (s : Str) : Bool :=
  !(pathOfStr s).absolute &&
    (pathOfStr s).comps.all fun c =>
      match c with
      | .parentDir => false
      | _ => true

/-- Rust `Path::file_stem` on a file name: the portion before the last
`.`, except that a name whose only `.` is leading is its own stem. -/
def fileStemName (name : Str) : Str :=
  if (name.reverse.takeWhile (fun c => !(c == 46))).length == name.length then
    name
  else if name.reverse.drop
      ((name.reverse.takeWhile (fun c => !(c == 46))).length + 1) == [] then
    name
  else
    (name.reverse.drop
      ((name.reverse.takeWhile (fun c => !(c == 46))).length + 1)).reverse

/-- Rust `PathBuf::with_extension ext` (used with `"part"`): replace the
extension of the last normal component; a path without a file name is
returned unchanged. -/
def withExtension (p : RPath) (ext : Str) : RPath :=
  match p.comps.getLast? with
  | some (.normal name) =>
      ⟨p.absolute, p.comps.dropLast ++ [.normal (fileStemName name ++ 46 :: ext)]⟩
  | _ => p

/-- Modelled from the spec: the claim "resolve to paths inside
install_dir" reads a path lexically — `.` skips, `..` pops, and popping
above the filesystem root fails. -/
def resolveComps (acc : List Str) : List PathComp → Option (List Str)
  | [] => some acc
  | .curDir :: rest => resolveComps acc rest
  | .normal n :: rest => resolveComps (acc ++ [n]) rest
  | .parentDir :: rest =>
      match acc with
      | [] => none
      | _ :: _ => resolveComps acc.dropLast rest

/-- Modelled from the spec: "No file is ever written outside
`install_dir`" — a path built on the absolute install directory is inside
it iff its lexical resolution stays below the install components. -/
def insideInstallDir (install : List Str) (p : RPath) : Bool :=
  p.absolute &&
    match resolveComps [] p.comps with
    | none => false
    | some full => install.isPrefixOf full

/-- One manifest chunk (`ManifestChunk`, download_manager.rs:117-128). -/
structure ManifestChunk where
  index : Nat
  hash : Str
  size : Nat
  url : Str
  fallback_urls : List Str
  compression : Str
deriving DecidableEq

/-- One manifest file entry; fields the planner does not read are
omitted. -/
structure ManifestFile where
  path : Str
  size : Nat
  hash : Str
  file_id : Str
  chunks : List ManifestChunk
deriving DecidableEq

/-- The manifest fields `build_download_plan` and `extract_archives`
read. -/
structure Manifest where
  chunk_size : Nat
  install_mode : Option Str
  archive_dir : Option Str
  archive_cleanup : Bool
  archive_files : List Str
  files : List ManifestFile
deriving DecidableEq

/-- Rust `DEFAULT_CHUNK_SIZE` (download_manager.rs:33). -/
def DEFAULT_CHUNK_SIZE : Nat := 1024 * 1024

/-- Rust `MANIFEST_FILE` (download_manager.rs:34). -/
def MANIFEST_FILE : Str := strCodes "manifest.json"

/-- Rust `is_archive_mode` (download_manager.rs:134-136). -/
def is_archive_mode (m : Manifest) : Bool :=
  m.install_mode == some (strCodes "archive_chunks")

/-- Rust `archive_dir_name` (download_manager.rs:138-143). -/
def archive_dir_name (m : Manifest) : Str :=
  m.archive_dir.getD (strCodes ".chunks")

/-- Rust `str::replace("\\", "/")`. -/
def replaceBackslash (s : Str) : Str :=
  s.map fun c => if c == 92 then 47 else c

/-- The per-download chunk-completion map `(file_id, chunk_index) → hash`.
(Rust keys by `(String, i32)` with `chunk.index as i32`; indices are
modelled as `Nat`.) -/
abbrev CompletedMap := List ((Str × Nat) × Str)

def completedLookup (m : CompletedMap) (key : Str × Nat) : Option Str :=
  (m.find? (fun e => e.1 == key)).map (·.2)

/-- The `.part` files on disk, as path → length (only the length is read
by the planner). -/
abbrev PartFs := List (RPath × Nat)

def partLen (fs : PartFs) (p : RPath) : Option Nat :=
  (fs.find? (fun e => e.1 == p)).map (·.2)

/-- Rust `chunk_region_exists` (download_manager.rs:2399-2405):
`metadata.len() >= offset.saturating_add(size)`, false when the file is
missing. -/
def chunk_region_exists (fs : PartFs) (path : RPath) (offset size : Nat) :
    Bool :=
  match partLen fs path with
  | some len => offset + size ≤ len
  | none => false

/-- Rust `ChunkJob` (download_manager.rs:156-166). -/
structure ChunkJob where
  file_id : Str
  temp_path : RPath
  index : Nat
  offset : Nat
  size : Nat
  hash : Str
  url : Str
  fallback_urls : List Str
  compression : Str
deriving DecidableEq

/-- One `DownloadChunk` completion row as seeded by the planner
(`download_id` is filled in later by the manager; the timestamp is not
modelled). -/
structure DownloadChunkRow where
  file_id : Str
  chunk_index : Nat
  hash : Str
  size : Nat
  status : Str
deriving DecidableEq

/-- Rust `FilePlan` (download_manager.rs:178-182). -/
structure FilePlan where
  final_path : RPath
  temp_path : RPath
  size : Nat
deriving DecidableEq

/-- Rust `DownloadPlan` (download_manager.rs:168-176). -/
structure DownloadPlan where
  chunks : List ChunkJob
  total_bytes : Nat
  preexisting_bytes : Nat
  files_to_finalize : List FilePlan
  delete_files : List RPath
  precompleted_chunks : List DownloadChunkRow
deriving DecidableEq

/-- The chunk size the planner uses (download_manager.rs:2418-2423). -/
def effChunkSize (m : Manifest) : Nat :=
  if m.chunk_size > 0 then m.chunk_size else DEFAULT_CHUNK_SIZE

/-- The `.part` path of a manifest file:
`install_dir.join(&file.path).with_extension("part")`
(download_manager.rs:2464-2465). -/
def tempPathOf (install : List Str) (file : ManifestFile) : RPath :=
  withExtension (joinPath (installPath install) file.path) (strCodes "part")

/-- The per-chunk "already done" test of `build_download_plan`
(download_manager.rs:2469-2476): the completion row exists, carries the
chunk's hash, and the `.part` file covers `[0, offset + size)` on disk. -/
def chunkDone (completed : CompletedMap) (fs : PartFs) (file_id : Str)
    (temp_path : RPath) (chunk_size : Nat) (c : ManifestChunk) : Bool :=
  match completedLookup completed (file_id, c.index) with
  | some h =>
      h == c.hash &&
        chunk_region_exists fs temp_path (c.index * chunk_size) c.size
  | none => false

def mkChunkJob (file : ManifestFile) (temp_path : RPath) (chunk_size : Nat)
    (c : ManifestChunk) : ChunkJob :=
  { file_id := file.file_id, temp_path := temp_path, index := c.index,
    offset := c.index * chunk_size, size := c.size, hash := c.hash,
    url := c.url, fallback_urls := c.fallback_urls,
    compression := c.compression }

def mkCompletedRow (file : ManifestFile) (c : ManifestChunk) :
    DownloadChunkRow :=
  { file_id := file.file_id, chunk_index := c.index, hash := c.hash,
    size := c.size, status := strCodes "completed" }

/-- The inner chunk loop of `build_download_plan`
(download_manager.rs:2467-2502), collecting in order: emitted jobs, total
bytes, preexisting bytes, precompleted rows, and the `needs_finalize`
flag. -/
def planChunksOfFile (completed : CompletedMap) (fs : PartFs)
    (file : ManifestFile) (temp_path : RPath) (chunk_size : Nat) :
    List ManifestChunk →
      List ChunkJob × Nat × Nat × List DownloadChunkRow × Bool
  | [] => ([], 0, 0, [], false)
  | c :: rest =>
      let r := planChunksOfFile completed fs file temp_path chunk_size rest
      if chunkDone completed fs file.file_id temp_path chunk_size c then
        (r.1, c.size + r.2.1, c.size + r.2.2.1,
          mkCompletedRow file c :: r.2.2.2.1, r.2.2.2.2)
      else
        (mkChunkJob file temp_path chunk_size c :: r.1, c.size + r.2.1,
          r.2.2.1, r.2.2.2.1, true)

/-- The outer file loop of `build_download_plan`
(download_manager.rs:2462-2509). -/
def planFiles (completed : CompletedMap) (fs : PartFs) (chunk_size : Nat)
    (install : List Str) :
    List ManifestFile →
      List ChunkJob × Nat × Nat × List FilePlan × List DownloadChunkRow
  | [] => ([], 0, 0, [], [])
  | file :: rest =>
      let final_path := joinPath (installPath install) file.path
      let temp_path := withExtension final_path (strCodes "part")
      let f := planChunksOfFile completed fs file temp_path chunk_size
        file.chunks
      let r := planFiles completed fs chunk_size install rest
      (f.1 ++ r.1, f.2.1 + r.2.1, f.2.2.1 + r.2.2.1,
        (if f.2.2.2.2 then [⟨final_path, temp_path, file.size⟩] else [])
          ++ r.2.2.2.1,
        f.2.2.2.1 ++ r.2.2.2.2)

/-- The archive-mode deletion block of `build_download_plan`
(download_manager.rs:2425-2453): old archive files absent from the new
set, skipping empties, anything under the archive dir, the manifest file,
and unsafe relative paths. -/
def archiveDeleteFiles (install : List Str) (m : Manifest) (old : Manifest) :
    List RPath :=
  old.archive_files.filterMap fun old_path =>
    let normalized := replaceBackslash old_path
    if (m.archive_files.map replaceBackslash).contains normalized then none
    else if normalized == [] then none
    else if (archive_dir_name m).isPrefixOf normalized then none
    else if eqIgnoreAsciiCase normalized MANIFEST_FILE then none
    else if !(is_safe_relative_path normalized) then none
    else some (joinPath (installPath install) normalized)

/-- The old-manifest file deletions of `build_download_plan`
(download_manager.rs:2455-2461): files of the old manifest whose path no
longer appears, joined into the install dir with no safety check. -/
def oldFileDeleteFiles (install : List Str) (m : Manifest) (old : Manifest) :
    List RPath :=
  old.files.filterMap fun old_file =>
    if m.files.any (fun file => file.path == old_file.path) then none
    else some (joinPath (installPath install) old_file.path)

/-- Rust `build_download_plan` (download_manager.rs:2406-2517).  The Rust
function returns `Result` but has no failing path. -/
def build_download_plan (m : Manifest) (install : List Str)
    (completed : CompletedMap) (fs : PartFs) (old : Option Manifest) :
    DownloadPlan :=
  let archiveDeletes :=
    if is_archive_mode m then
      match old with
      | some o => archiveDeleteFiles install m o
      | none => []
    else []
  let oldDeletes :=
    match old with
    | some o => oldFileDeleteFiles install m o
    | none => []
  let r := planFiles completed fs (effChunkSize m) install m.files
  { chunks := r.1, total_bytes := r.2.1, preexisting_bytes := r.2.2.1,
    files_to_finalize := r.2.2.2.1,
    delete_files := archiveDeletes ++ oldDeletes,
    precompleted_chunks := r.2.2.2.2 }

/-- One zip entry as `extract_zip_archive` sees it. -/
structure ZipEntry where
  name : Str
  isDir : Bool
  data : Bytes
deriving DecidableEq

/-- A filesystem effect of extraction. -/
inductive FsWrite
  | mkdir (path : RPath)
  | file (path : RPath) (data : Bytes)
deriving DecidableEq

def FsWrite.path : FsWrite → RPath
  | .mkdir p => p
  | .file p _ => p

/-- Rust `extract_zip_archive` (download_manager.rs:2635-2663): per entry,
backslashes normalized, empty names skipped, unsafe relative paths
skipped; directories are created and files written at
`install_dir.join(entry)`.  (`create_dir_all` on a file's parent creates
only ancestors of the listed path, which lie between `install_dir` and
it.) -/
def extract_zip_archive (install : List Str) (entries : List ZipEntry) :
    List FsWrite :=
  entries.filterMap fun entry =>
    let name := replaceBackslash entry.name
    if name == [] then none
    else if !(is_safe_relative_path name) then none
    else
      let out_path := joinPath (installPath install) name
      if entry.isDir then some (.mkdir out_path)
      else some (.file out_path entry.data)

/-- Modelled from the spec: "already done iff
`completed[(file_id,index)] == chunk.hash` AND `.part` file length ≥
`(index+1)*chunk_size`" — the claim's length guard. -/
def spec_chunk_done (completed : CompletedMap) (fs : PartFs) (file_id : Str)
    (temp_path : RPath) (chunk_size : Nat) (c : ManifestChunk) : Bool :=
  (completedLookup completed (file_id, c.index) == some c.hash) &&
    (match partLen fs temp_path with
     | some len => (c.index + 1) * chunk_size ≤ len
     | none => false)

/-- Helper: resolving a run of plain components appends them. -/
theorem resolveComps_append_normals (l : List Str) (acc : List Str)
    (cs : List PathComp) :
    resolveComps acc (l.map .normal ++ cs) = resolveComps (acc ++ l) cs := by
  induction l generalizing acc with
  | nil => simp
  | cons n t ih =>
      show resolveComps (acc ++ [n]) (t.map .normal ++ cs) = _
      rw [ih, List.append_assoc, List.singleton_append]

/-- Helper: components free of `..` resolve below the accumulator. -/
theorem resolveComps_no_parent (cs : List PathComp)
    (h : (cs.all fun c =>
      match c with | .parentDir => false | _ => true) = true) :
    ∀ acc, ∃ tail, resolveComps acc cs = some (acc ++ tail) := by
  induction cs with
  | nil => intro acc; exact ⟨[], by simp [resolveComps]⟩
  | cons c rest ih =>
      intro acc
      rw [List.all_cons, Bool.and_eq_true] at h
      cases c with
      | parentDir => simp at h
      | curDir => simpa [resolveComps] using ih h.2 acc
      | normal n =>
          obtain ⟨tail, ht⟩ := ih h.2 (acc ++ [n])
          refine ⟨n :: tail, ?_⟩
          simp only [resolveComps, ht, List.append_assoc, List.singleton_append]

/-- Helper: a list is a Boolean prefix of itself extended by any tail. -/
theorem isPrefixOf_append_self (l t : List Str) :
    l.isPrefixOf (l ++ t) = true := by
  induction l with
  | nil => simp [List.isPrefixOf]
  | cons a r ih => simp [List.isPrefixOf, ih]

/-- Helper: joining a safe relative string onto the install dir stays
inside it. -/
theorem joined_safe_inside (install : List Str) (s : Str)
    (hsafe : is_safe_relative_path s = true) :
    insideInstallDir install (joinPath (installPath install) s) = true := by
  unfold is_safe_relative_path at hsafe
  rw [Bool.and_eq_true, Bool.not_eq_true'] at hsafe
  obtain ⟨habs, hall⟩ := hsafe
  unfold joinPath insideInstallDir installPath
  simp only [habs, Bool.false_eq_true, if_false]
  obtain ⟨tail, ht⟩ := resolveComps_no_parent _ hall install
  have hres : resolveComps [] (install.map .normal ++ (pathOfStr s).comps) =
      some (install ++ tail) := by
    rw [resolveComps_append_normals install [] (pathOfStr s).comps,
      List.nil_append, ht]
  simp [hres, isPrefixOf_append_self]

/-- Helper: every output of a `filterMap` inherits a property of the
emitting function. -/
theorem all_filterMap_of_imp {α β : Type} (f : α → Option β) (p : β → Bool)
    (l : List α) (h : ∀ a b, f a = some b → p b = true) :
    ((l.filterMap f).all p) = true := by
  induction l with
  | nil => rfl
  | cons a t ih =>
      rw [List.filterMap_cons]
      cases hf : f a with
      | none => exact ih
      | some b => simp [List.all_cons, h a b hf, ih]

/-- C1 counterexample: the claim says the `.part`/final paths from
`build_download_plan` and the old-manifest deletions always resolve inside
`install_dir`.  A manifest whose file path is `../evil` yields a chunk job
and a finalize pair whose paths escape the install dir, and an old
manifest with path `../old` yields an escaping deletion — none of these
paths is rejected. -/
theorem plan_path_escape_counterexample :
    ((build_download_plan
        ⟨4, none, none, false, [],
          [⟨strCodes "../evil", 1, strCodes "aabbccdd", strCodes "f1",
            [⟨0, strCodes "aabbccdd", 1, strCodes "u", [],
              strCodes "none"⟩]⟩]⟩
        [strCodes "inst"] [] [] none).files_to_finalize.map
      fun fp => insideInstallDir [strCodes "inst"] fp.temp_path) = [false] ∧
    ((build_download_plan
        ⟨4, none, none, false, [],
          [⟨strCodes "../evil", 1, strCodes "aabbccdd", strCodes "f1",
            [⟨0, strCodes "aabbccdd", 1, strCodes "u", [],
              strCodes "none"⟩]⟩]⟩
        [strCodes "inst"] [] [] none).chunks.map
      fun j => insideInstallDir [strCodes "inst"] j.temp_path) = [false] ∧
    ((build_download_plan
        ⟨4, none, none, false, [],
          [⟨strCodes "../evil", 1, strCodes "aabbccdd", strCodes "f1",
            [⟨0, strCodes "aabbccdd", 1, strCodes "u", [],
              strCodes "none"⟩]⟩]⟩
        [strCodes "inst"] [] []
        (some ⟨4, none, none, false, [],
          [⟨strCodes "../old", 1, strCodes "x", strCodes "g1", []⟩]⟩)
      ).delete_files.map
      (insideInstallDir [strCodes "inst"])) = [false] := by
  refine ⟨by decide, by decide, by decide⟩

/-- C1 as amended: path safety is enforced at extract time only — every
write performed by `extract_zip_archive` resolves inside `install_dir`,
and an entry whose normalized name contains `..`, a root or a prefix
component is skipped, never written.  (The `.part`/final paths of
`build_download_plan` and the old-manifest deletions are joined into
`install_dir` without this check, as the counterexample shows.) -/
theorem extract_zip_writes_stay_inside_install (install : List Str)
    (entries : List ZipEntry) :
    ((extract_zip_archive install entries).all fun w =>
      insideInstallDir install w.path) = true ∧
    (∀ entry, is_safe_relative_path (replaceBackslash entry.name) = false →
      extract_zip_archive install [entry] = []) := by
  constructor
  · unfold extract_zip_archive
    refine all_filterMap_of_imp _ _ entries ?_
    intro e w hf
    simp only at hf
    split_ifs at hf with h1 h2 h3
    · have h2' : is_safe_relative_path (replaceBackslash e.name) = true := by
        simpa using h2
      cases hf
      exact joined_safe_inside install (replaceBackslash e.name) h2'
    · have h2' : is_safe_relative_path (replaceBackslash e.name) = true := by
        simpa using h2
      cases hf
      exact joined_safe_inside install (replaceBackslash e.name) h2'
  · intro entry hskip
    unfold extract_zip_archive
    rw [List.filterMap_cons]
    simp [hskip]

/-- Witness for `extract_zip_writes_stay_inside_install`: a traversal
entry `../../evil.exe` is skipped, and a normal entry is written inside
the install dir. -/
theorem extract_zip_writes_stay_inside_install_witness :
    ((extract_zip_archive [strCodes "inst"]
        [⟨strCodes "a/b.txt", false, [1]⟩]).all fun w =>
      insideInstallDir [strCodes "inst"] w.path) = true ∧
    extract_zip_archive [strCodes "inst"]
      [⟨strCodes "../../evil.exe", false, [1]⟩] = [] := by
  refine ⟨(extract_zip_writes_stay_inside_install [strCodes "inst"]
      [⟨strCodes "a/b.txt", false, [1]⟩]).1, ?_⟩
  exact (extract_zip_writes_stay_inside_install [strCodes "inst"] []).2
    ⟨strCodes "../../evil.exe", false, [1]⟩ (by decide)

/-- Helper: the inner chunk loop classifies each chunk by `chunkDone`. -/
theorem planChunksOfFile_spec (completed : CompletedMap) (fs : PartFs)
    (file : ManifestFile) (temp : RPath) (cs : Nat)
    (chunks : List ManifestChunk) :
    planChunksOfFile completed fs file temp cs chunks =
      ((chunks.filter fun c =>
          !(chunkDone completed fs file.file_id temp cs c)).map
        (mkChunkJob file temp cs),
       (chunks.map (·.size)).sum,
       ((chunks.filter (chunkDone completed fs file.file_id temp cs)).map
         (·.size)).sum,
       (chunks.filter (chunkDone completed fs file.file_id temp cs)).map
         (mkCompletedRow file),
       chunks.any fun c =>
         !(chunkDone completed fs file.file_id temp cs c)) := by
  induction chunks with
  | nil => rfl
  | cons c rest ih =>
      unfold planChunksOfFile
      rw [ih]
      by_cases hd : chunkDone completed fs file.file_id temp cs c = true
      · simp [hd, List.filter_cons, List.any_cons]
      · rw [Bool.not_eq_true] at hd
        simp [hd, List.filter_cons, List.any_cons]

/-- Helper: the outer file loop, characterized file by file. -/
theorem planFiles_spec (completed : CompletedMap) (fs : PartFs) (cs : Nat)
    (install : List Str) (files : List ManifestFile) :
    planFiles completed fs cs install files =
      (files.flatMap fun file =>
         (file.chunks.filter fun c =>
            !(chunkDone completed fs file.file_id (tempPathOf install file)
              cs c)).map
           (mkChunkJob file (tempPathOf install file) cs),
       (files.map fun file => (file.chunks.map (·.size)).sum).sum,
       (files.map fun file =>
         ((file.chunks.filter
             (chunkDone completed fs file.file_id (tempPathOf install file)
               cs)).map (·.size)).sum).sum,
       files.filterMap fun file =>
         if file.chunks.any fun c =>
             !(chunkDone completed fs file.file_id (tempPathOf install file)
               cs c) then
           some ⟨joinPath (installPath install) file.path,
             tempPathOf install file, file.size⟩
         else none,
       files.flatMap fun file =>
         (file.chunks.filter
           (chunkDone completed fs file.file_id (tempPathOf install file)
             cs)).map (mkCompletedRow file)) := by
  induction files with
  | nil => rfl
  | cons file rest ih =>
      simp only [planFiles, planChunksOfFile_spec, ih, tempPathOf]
      by_cases hneeds : (file.chunks.any fun c =>
          !(chunkDone completed fs file.file_id
            (withExtension (joinPath (installPath install) file.path)
              (strCodes "part")) cs c)) = true
      · simp only [List.flatMap_cons, List.map_cons, List.sum_cons,
          List.filterMap_cons, hneeds, if_true, List.singleton_append]
      · rw [Bool.not_eq_true] at hneeds
        simp only [List.flatMap_cons, List.map_cons, List.sum_cons,
          List.filterMap_cons, hneeds, Bool.false_eq_true, if_false,
          List.nil_append]

/-- C2 counterexample: the claim's length guard is
`(index+1)*chunk_size`, the code's is `offset + chunk.size`.  With
`chunk_size = 4` and a single (last) chunk of size 2 whose completion row
matches and whose `.part` file is 2 bytes long, the code classifies the
chunk as done (plan emits no job, counts 2 preexisting bytes) although the
claim's condition is false (2 < (0+1)·4). -/
theorem chunk_done_length_guard_counterexample :
    (build_download_plan
        ⟨4, none, none, false, [],
          [⟨strCodes "f", 2, strCodes "ff", strCodes "f1",
            [⟨0, strCodes "aabbccdd", 2, strCodes "u", [],
              strCodes "none"⟩]⟩]⟩
        [strCodes "inst"]
        [((strCodes "f1", 0), strCodes "aabbccdd")]
        [(⟨true, [.normal (strCodes "inst"), .normal (strCodes "f.part")]⟩,
          2)] none).chunks = [] ∧
    (build_download_plan
        ⟨4, none, none, false, [],
          [⟨strCodes "f", 2, strCodes "ff", strCodes "f1",
            [⟨0, strCodes "aabbccdd", 2, strCodes "u", [],
              strCodes "none"⟩]⟩]⟩
        [strCodes "inst"]
        [((strCodes "f1", 0), strCodes "aabbccdd")]
        [(⟨true, [.normal (strCodes "inst"), .normal (strCodes "f.part")]⟩,
          2)] none).preexisting_bytes = 2 ∧
    spec_chunk_done
      [((strCodes "f1", 0), strCodes "aabbccdd")]
      [(⟨true, [.normal (strCodes "inst"), .normal (strCodes "f.part")]⟩, 2)]
      (strCodes "f1")
      ⟨true, [.normal (strCodes "inst"), .normal (strCodes "f.part")]⟩ 4
      ⟨0, strCodes "aabbccdd", 2, strCodes "u", [], strCodes "none"⟩ =
      false := by
  refine ⟨by decide, by decide, by decide⟩

/-- C2 as amended: a chunk is classified already done — excluded from
`plan.chunks`, counted into `preexisting_bytes` and seeded as a completion
row — iff the completed map holds its `(file_id, index)` with the chunk's
hash and the `.part` file is at least `index*chunk_size + chunk.size`
bytes long (the code's guard is `offset + size`, not the claim's
`(index+1)*chunk_size`; the two differ exactly on a last chunk shorter
than `chunk_size`); every other chunk is emitted as a `ChunkJob`. -/
theorem plan_chunk_classification (m : Manifest) (install : List Str)
    (completed : CompletedMap) (fs : PartFs) (old : Option Manifest) :
    (build_download_plan m install completed fs old).chunks =
      (m.files.flatMap fun file =>
        (file.chunks.filter fun c =>
           !(chunkDone completed fs file.file_id (tempPathOf install file)
             (effChunkSize m) c)).map
          (mkChunkJob file (tempPathOf install file) (effChunkSize m))) ∧
    (build_download_plan m install completed fs old).preexisting_bytes =
      (m.files.map fun file =>
        ((file.chunks.filter
            (chunkDone completed fs file.file_id (tempPathOf install file)
              (effChunkSize m))).map (·.size)).sum).sum ∧
    (build_download_plan m install completed fs old).precompleted_chunks =
      (m.files.flatMap fun file =>
        (file.chunks.filter
          (chunkDone completed fs file.file_id (tempPathOf install file)
            (effChunkSize m))).map (mkCompletedRow file)) ∧
    (build_download_plan m install completed fs old).total_bytes =
      (m.files.map fun file => (file.chunks.map (·.size)).sum).sum := by
  have h := planFiles_spec completed fs (effChunkSize m) install m.files
  refine ⟨?_, ?_, ?_, ?_⟩
  · show (planFiles completed fs (effChunkSize m) install m.files).1 = _
    rw [h]
  · show (planFiles completed fs (effChunkSize m) install m.files).2.2.1 = _
    rw [h]
  · show (planFiles completed fs (effChunkSize m) install
      m.files).2.2.2.2 = _
    rw [h]
  · show (planFiles completed fs (effChunkSize m) install m.files).2.1 = _
    rw [h]

/-! ## Peer cache server ACL
(`is_allowed_remote`, `handle_connection`; peer_cache_server.rs:220-290,
348-414)

IPv4 addresses are modelled as their four octets, IPv6 addresses as their
eight 16-bit segments.  The scope predicates mirror the `std::net`
implementations the code calls. -/

inductive PeerNetworkMode
  | lanOnly
  | lanVpn
deriving DecidableEq

inductive IpAddr
  | v4 (a b c d : Nat)
  | v6 (s0 s1 s2 s3 s4 s5 s6 s7 : Nat)
deriving DecidableEq

/-- Rust `Ipv4Addr::is_loopback`: `127.0.0.0/8`. -/
def v4_is_loopback (a : Nat) : Bool := a == 127

/-- Rust `Ipv4Addr::is_private`: `10/8`, `172.16/12`, `192.168/16`. -/
def v4_is_private (a b : Nat) : Bool :=
  a == 10 || (a == 172 && (16 ≤ b && b ≤ 31)) || (a == 192 && b == 168)

/-- Rust `Ipv4Addr::is_link_local`: `169.254/16`. -/
def v4_is_link_local (a b : Nat) : Bool := a == 169 && b == 254

/-- Rust `is_cgnat` (peer_cache_server.rs:416-419): `100.64.0.0/10`. -/
def is_cgnat (a b : Nat) : Bool := a == 100 && (64 ≤ b && b ≤ 127)

/-- Rust `Ipv6Addr::is_loopback`: `::1`. -/
def v6_is_loopback (s0 s1 s2 s3 s4 s5 s6 s7 : Nat) : Bool :=
  s0 == 0 && s1 == 0 && s2 == 0 && s3 == 0 && s4 == 0 && s5 == 0 &&
    s6 == 0 && s7 == 1

/-- Rust `Ipv6Addr::is_unique_local`: `fc00::/7`. -/
def v6_is_unique_local (s0 : Nat) : Bool := s0 &&& 0xfe00 == 0xfc00

/-- Rust `Ipv6Addr::is_unicast_link_local`: `fe80::/10`. -/
def v6_is_unicast_link_local (s0 : Nat) : Bool := s0 &&& 0xffc0 == 0xfe80

/-- Rust `IpAddr::is_loopback`. -/
def ip_is_loopback : IpAddr → Bool
  | .v4 a _ _ _ => v4_is_loopback a
  | .v6 s0 s1 s2 s3 s4 s5 s6 s7 => v6_is_loopback s0 s1 s2 s3 s4 s5 s6 s7

/-- Rust `is_allowed_remote` (peer_cache_server.rs:393-414). -/
def is_allowed_remote (ip : IpAddr) (mode : PeerNetworkMode) : Bool :=
  if ip_is_loopback ip then true
  else
    match ip with
    | .v4 a b _ _ =>
        if v4_is_private a b || v4_is_link_local a b then true
        else if mode == .lanVpn && is_cgnat a b then true
        else false
    | .v6 s0 s1 s2 s3 s4 s5 s6 s7 =>
        if v6_is_loopback s0 s1 s2 s3 s4 s5 s6 s7 ||
            v6_is_unique_local s0 || v6_is_unicast_link_local s0 then true
        else mode == .lanVpn && v6_is_unique_local s0

/-- Rust `is_valid_hash` (peer_cache_server.rs:360-366): exactly 64 ASCII hex
digits (any case). -/
def is_valid_hash (value : Str) : Bool :=
  value.length == 64 && value.all isAsciiHexDigitCode

/-- Rust `str::strip_prefix`. -/
def stripPrefixStr (pre s : Str) : Option Str :=
  if pre.isPrefixOf s then some (s.drop pre.length) else none

/-- Rust `raw_path.split('?').next()`. -/
def stripQuery (s : Str) : Str := s.takeWhile fun c => !(c == 63)

/-- The response `handle_connection` writes. -/
inductive PeerResponse
  | forbidden
  | methodNotAllowed
  | health
  | badRequest
  | notFound
  | payload (data : Bytes)
deriving DecidableEq

/-- Rust `handle_connection` (peer_cache_server.rs:220-290).  The depot below
the server's root is keyed by the normalized hash
(`chunk_path_for_hash` is injective in it); per-connection I/O failures
and the upload limiter, which only paces the stream, are not modelled. -/
def handle_connection (mode : PeerNetworkMode) (remote : IpAddr)
    (method : Str) (raw_path : Str) (depot : List (Str × Bytes)) :
    PeerResponse :=
  if !(is_allowed_remote remote mode) then .forbidden
  else
    if !(method == strCodes "GET") then .methodNotAllowed
    else if stripQuery raw_path == strCodes "/health" then .health
    else
      match stripPrefixStr (strCodes "/chunks/") (stripQuery raw_path) with
      | some hash =>
          if !(is_valid_hash hash) then .badRequest
          else
            match (depot.find? (fun e =>
                e.1 == asciiLowerStr hash)).map (·.2) with
            | none => .notFound
            | some data => .payload data
      | none => .notFound

/-- Modelled from the spec: "LAN-only (default): loopback, RFC1918,
link-local" — the source scopes the spec permits in LAN-only mode. -/
def spec_lan_only_scope (ip : IpAddr) : Bool :=
  ip_is_loopback ip ||
    (match ip with
     | .v4 a b _ _ => v4_is_private a b || v4_is_link_local a b
     | .v6 s0 _ _ _ _ _ _ _ => v6_is_unicast_link_local s0)

/-- C4: the claim says the LAN-only peer server answers IPv6 unique-local
sources with 403 and reads no depot file for them.  In the code the first
branch of `is_allowed_remote`'s V6 arm accepts `is_unique_local`
unconditionally (the later `mode == LanVpn && v6.is_unique_local()` test
is unreachable), so a ULA source such as `fd00::1` is served the chunk
payload in LAN-only mode although it is outside the spec's LAN-only
scope. -/
theorem lan_only_serves_ipv6_unique_local :
    is_allowed_remote (.v6 0xfd00 0 0 0 0 0 0 1) .lanOnly = true ∧
    spec_lan_only_scope (.v6 0xfd00 0 0 0 0 0 0 1) = false ∧
    handle_connection .lanOnly (.v6 0xfd00 0 0 0 0 0 0 1) (strCodes "GET")
      (strCodes "/chunks/" ++ List.replicate 64 97)
      [(List.replicate 64 97, [5])] = .payload [5] := by
  refine ⟨by decide, by decide, by decide⟩

/-! ## Download controls
(`pause_download`, `resume_download`, `cancel_download`, `set_control`;
download_manager.rs:1065-1113)

The running-download registry maps a download id to its control handle;
`watch::Sender::send` fails iff the receiver side is gone, recorded here
as a liveness flag.  The registry mutex is never poisoned in the model, so
`set_control`'s lock-failure branch is unreachable. -/

inductive CtrlErr
  | notFound
  | channelClosed
deriving DecidableEq

/-- Registry of running downloads: id → control channel still open. -/
abbrev Registry := List (Str × Bool)

/-- The persisted download-state rows: id → status. -/
abbrev StatusDb := List (Str × Str)

/-- Rust `set_control` (download_manager.rs:1100-1113). -/
def set_control (reg : Registry) (id : Str) : Except CtrlErr Unit :=
  match (reg.find? (fun e => e.1 == id)).map (·.2) with
  | none => .error .notFound
  | some alive => if alive then .ok () else .error .channelClosed

/-- Rust `update_download_status` (db/queries.rs:382-389): a SQL UPDATE of the
stored status — a no-op for an id with no row. -/
def update_download_status (db : StatusDb) (id status : Str) : StatusDb :=
  db.map fun e => if e.1 == id then (e.1, status) else e

/-- Rust `pause_download` (download_manager.rs:1064-1068): propagates the
`set_control` error, then updates the status (the update's own result is
discarded). -/
def pause_download (reg : Registry) (db : StatusDb) (id : Str) :
    Except CtrlErr StatusDb :=
  match set_control reg id with
  | .error e => .error e
  | .ok _ => .ok (update_download_status db id (strCodes "paused"))

/-- Rust `resume_download` (download_manager.rs:1070-1074). -/
def resume_download (reg : Registry) (db : StatusDb) (id : Str) :
    Except CtrlErr StatusDb :=
  match set_control reg id with
  | .error e => .error e
  | .ok _ => .ok (update_download_status db id (strCodes "downloading"))

set_option linter.unusedVariables false in
/-- Rust `cancel_download` (download_manager.rs:1076-1087): a `set_control`
failure is only logged; the status update to "cancelled" is attempted in
every case and the function returns `Ok`. -/
def cancel_download (reg : Registry) (db : StatusDb) (id : Str) :
    Except CtrlErr StatusDb :=
  .ok (update_download_status db id (strCodes "cancelled"))

/-- C10: `cancel_download` returns `Ok` for every download id — including
ids with no running download — and always attempts to set that id's
persisted status to "cancelled"; `pause_download` and `resume_download`
instead return `NotFound` for an id with no running download. -/
theorem cancel_always_ok_pause_resume_error (reg : Registry) (db : StatusDb)
    (id : Str) :
    cancel_download reg db id =
      .ok (update_download_status db id (strCodes "cancelled")) ∧
    (reg.find? (fun e => e.1 == id) = none →
      pause_download reg db id = .error .notFound ∧
      resume_download reg db id = .error .notFound) := by
  refine ⟨rfl, fun h => ⟨?_, ?_⟩⟩
  · unfold pause_download set_control
    rw [h]
    rfl
  · unfold resume_download set_control
    rw [h]
    rfl

/-- Witness for `cancel_always_ok_pause_resume_error` with an empty
registry and one persisted row. -/
theorem cancel_always_ok_pause_resume_error_witness :
    cancel_download [] [(strCodes "d1", strCodes "downloading")]
        (strCodes "d1") =
      .ok (update_download_status [(strCodes "d1", strCodes "downloading")]
        (strCodes "d1") (strCodes "cancelled")) ∧
    pause_download [] [(strCodes "d1", strCodes "downloading")]
        (strCodes "d1") = .error .notFound ∧
    resume_download [] [(strCodes "d1", strCodes "downloading")]
        (strCodes "d1") = .error .notFound := by
  have h := cancel_always_ok_pause_resume_error []
    [(strCodes "d1", strCodes "downloading")] (strCodes "d1")
  exact ⟨h.1, (h.2 (by decide)).1, (h.2 (by decide)).2⟩

/-! ## Chunk fetcher (`download_chunk`; download_manager.rs:1992-2211)

The model covers the in-process (reqwest) engine.  The aria2 engine, the
pause/cancel control signal and the body streaming are I/O and
concurrency; they are orthogonal to the per-URL retry policy the claims
are about.  External collaborators are parameters: `sha` is
`compute_sha256_hex` (sha2 crate), `peerKeyOf` is `peer_url_fingerprint`
(peer_coordination.rs:278-286, which parses with `reqwest::Url`),
`zstdDecode` is `zstd::stream::decode_all`, and `net` gives the outcome of
the HTTP request for a URL at a given attempt number. -/

/-- The outcome of one HTTP attempt. -/
inductive HttpOutcome
  /-- A success status; `data` is the streamed body. -/
  | body (data : Bytes)
  /-- A non-success HTTP status code. -/
  | status (code : Nat)
  /-- A transport error with `is_timeout()`. -/
  | timeoutErr
  /-- A transport error with `is_connect()`. -/
  | connectErr
  /-- Any other transport error (not retryable). -/
  | otherErr
deriving DecidableEq

structure FetchEnv where
  sha : Bytes → Str
  peerKeyOf : Str → Option Str
  zstdDecode : Bytes → Option Bytes
  net : Str → Nat → HttpOutcome

/-- Rust `verify_chunk` (download_manager.rs:2380-2386): exact string equality
of the hex digest with the expected hash. -/
def verify_chunk (sha : Bytes → Str) (data : Bytes) (expected_hash : Str) :
    Bool :=
  sha data == expected_hash

/-- Rust `decompress_if_needed` (download_manager.rs:2365-2379); `none` models
the `Err` results (zstd failure or unsupported compression). -/
def decompress_if_needed (zstdDecode : Bytes → Option Bytes)
    (compression : Str) (data : Bytes) : Option Bytes :=
  if compression == strCodes "none" then some data
  else if compression == strCodes "zstd" then zstdDecode data
  else none

/-- Rust `resolve_http_retry_policy` (download_manager.rs:2223-2247) with no
environment overrides set: `(max_attempts, retry_wait_ms, timeout_ms)` =
`(2, 250, 1200)` for peers, `(6, 900, 60000)` for CDN. -/
def resolve_http_retry_policy (is_peer : Bool) : Nat × Nat × Nat :=
  if is_peer then (2, 250, 1200) else (6, 900, 60000)

/-- Rust `status.is_server_error() || status == 408 || status == 429`
(download_manager.rs:2145-2147). -/
def retryable_status (code : Nat) : Bool :=
  (500 ≤ code && code ≤ 599) || code == 408 || code == 429

/-- The NetworkPressure reason attached to a retryable status
(download_manager.rs:2149-2157). -/
def pressure_reason_status (code : Nat) : Str :=
  if code == 429 then strCodes "rate_limited"
  else if code == 408 then strCodes "http_timeout"
  else strCodes "http_retryable"

/-- Fetcher bookkeeping: the session peer blacklist, the requests issued
(url, attempt), and the NetworkPressure events (source, reason). -/
structure FetchState where
  blacklist : List Str
  trace : List (Str × Nat)
  pressure : List (Str × Str)
deriving DecidableEq

/-- The blacklist insertion performed on decompress failure or hash
mismatch when the URL is a peer URL (download_manager.rs:2103-2124). -/
def blacklistIfPeer (st : FetchState) (key : Option Str) : FetchState :=
  match key with
  | some k => { st with blacklist := st.blacklist ++ [k] }
  | none => st

/-- The `for attempt in 1..=max_attempts` loop of `download_chunk` for one
URL (download_manager.rs:2059-2186), iterating over the remaining attempt
numbers.  A body outcome is decompressed and verified; on failure of
either, the peer (if any) is blacklisted and the loop breaks — it does not
retry the URL.  Retryable statuses and timeout/connect errors emit a
NetworkPressure event and retry with backoff while attempts remain
(`attempt < max_attempts`); anything else breaks. -/
def attemptLoop (env : FetchEnv) (url : Str) (peerKey : Option Str)
    (hash compression : Str) (maxA : Nat) (srcName : Str) :
    List Nat → FetchState → FetchState × Option Bytes
  | [], st => (st, none)
  | attempt :: restAttempts, st =>
      let st1 : FetchState :=
        { st with trace := st.trace ++ [(url, attempt)] }
      match env.net url attempt with
      | .body data =>
          match decompress_if_needed env.zstdDecode compression data with
          | none => (blacklistIfPeer st1 peerKey, none)
          | some plain =>
              if verify_chunk env.sha plain hash then (st1, some plain)
              else (blacklistIfPeer st1 peerKey, none)
      | .status code =>
          if retryable_status code && attempt < maxA then
            attemptLoop env url peerKey hash compression maxA srcName
              restAttempts
              { st1 with pressure :=
                  st1.pressure ++ [(srcName, pressure_reason_status code)] }
          else (st1, none)
      | .timeoutErr =>
          if attempt < maxA then
            attemptLoop env url peerKey hash compression maxA srcName
              restAttempts
              { st1 with pressure :=
                  st1.pressure ++ [(srcName, strCodes "socket_timeout")] }
          else (st1, none)
      | .connectErr =>
          if attempt < maxA then
            attemptLoop env url peerKey hash compression maxA srcName
              restAttempts
              { st1 with pressure :=
                  st1.pressure ++ [(srcName, strCodes "socket_connect")] }
          else (st1, none)
      | .otherErr => (st1, none)

/-- One URL's attempts, numbered `1..=max_attempts`. -/
def tryUrl (env : FetchEnv) (url : Str) (peerKey : Option Str)
    (hash compression : Str) (maxA : Nat) (srcName : Str)
    (st : FetchState) : FetchState × Option Bytes :=
  attemptLoop env url peerKey hash compression maxA srcName
    (List.range' 1 maxA) st

/-- The URL loop of `download_chunk` (download_manager.rs:2043-2199):
blacklisted peer URLs are skipped; a URL whose attempts all fail is
abandoned and the next URL is tried; the first verified payload is
returned. -/
def urlLoop (env : FetchEnv) (hash compression : Str) :
    List Str → FetchState → FetchState × Option Bytes
  | [], st => (st, none)
  | url :: rest, st =>
      match env.peerKeyOf url with
      | some key =>
          if st.blacklist.contains key then
            urlLoop env hash compression rest st
          else
            match tryUrl env url (some key) hash compression
                (resolve_http_retry_policy true).1 (strCodes "peer") st with
            | (st', some data) => (st', some data)
            | (st', none) => urlLoop env hash compression rest st'
      | none =>
          match tryUrl env url none hash compression
              (resolve_http_retry_policy false).1 (strCodes "cdn") st with
          | (st', some data) => (st', some data)
          | (st', none) => urlLoop env hash compression rest st'

/-- Rust `download_chunk` on the in-process engine
(download_manager.rs:2038-2211): the ordered URL list is the primary URL
followed by the fallbacks. -/
def download_chunk (env : FetchEnv) (job : ChunkJob) (st : FetchState) :
    FetchState × Option Bytes :=
  urlLoop env job.hash job.compression (job.url :: job.fallback_urls) st

/-- A concrete fetch environment for the CDN-mismatch counterexample: one
CDN URL whose first response hashes wrong and whose second response would
hash right. -/
def cdnMismatchEnv : FetchEnv :=
  ⟨fun d => if d == [1] then strCodes "aa11" else strCodes "ff00",
   fun _ => none, fun d => some d,
   fun _ attempt => if attempt == 1 then .body [0] else .body [1]⟩

/-- The chunk job of the CDN-mismatch counterexample. -/
def cdnMismatchJob : ChunkJob :=
  ⟨strCodes "f1", ⟨true, []⟩, 0, 0, 1, strCodes "aa11", strCodes "u", [],
    strCodes "none"⟩

/-- C5 counterexample: the claim says a CDN chunk that fails SHA-256
verification is retried on the same URL up to its attempt limit (6).  In
`cdnMismatchEnv` the CDN URL `u` returns a wrong-hash body on attempt 1
and a correct body from attempt 2 on — a fetcher that retried would
succeed — yet `download_chunk` issues exactly one request to `u` and
fails. -/
theorem cdn_hash_mismatch_no_retry_counterexample :
    (download_chunk cdnMismatchEnv cdnMismatchJob ⟨[], [], []⟩).2 = none ∧
    (download_chunk cdnMismatchEnv cdnMismatchJob ⟨[], [], []⟩).1.trace =
      [(strCodes "u", 1)] ∧
    cdnMismatchEnv.net (strCodes "u") 2 = .body [1] ∧
    verify_chunk cdnMismatchEnv.sha [1] cdnMismatchJob.hash = true := by
  refine ⟨by decide, by decide, by decide, by decide⟩

/-- C5 as amended: a body that fails SHA-256 verification after
decompression ends the current URL immediately for peer and CDN alike —
no further attempt is made on that URL, and the fetcher continues with the
next URL in order; only for a peer URL is the peer additionally
blacklisted for the session. -/
theorem hash_mismatch_abandons_url (env : FetchEnv) (url : Str)
    (hash compression : Str) (st : FetchState) (data plain : Bytes)
    (hnet : env.net url 1 = .body data)
    (hdec : decompress_if_needed env.zstdDecode compression data =
      some plain)
    (hver : verify_chunk env.sha plain hash = false) :
    (∀ key maxA srcName attempt restAttempts st0 data0 plain0,
       env.net url attempt = .body data0 →
       decompress_if_needed env.zstdDecode compression data0 =
         some plain0 →
       verify_chunk env.sha plain0 hash = false →
       attemptLoop env url key hash compression maxA srcName
           (attempt :: restAttempts) st0 =
         (blacklistIfPeer
           { st0 with trace := st0.trace ++ [(url, attempt)] } key, none)) ∧
    (env.peerKeyOf url = none →
       ∀ rest, urlLoop env hash compression (url :: rest) st =
         urlLoop env hash compression rest
           { st with trace := st.trace ++ [(url, 1)] }) ∧
    (∀ key, env.peerKeyOf url = some key →
       st.blacklist.contains key = false →
       ∀ rest, urlLoop env hash compression (url :: rest) st =
         urlLoop env hash compression rest
           { st with
               trace := st.trace ++ [(url, 1)],
               blacklist := st.blacklist ++ [key] }) := by
  have habandon : ∀ (key : Option Str) maxA srcName attempt
      (restAttempts : List Nat) (st0 : FetchState) data0 plain0,
      env.net url attempt = .body data0 →
      decompress_if_needed env.zstdDecode compression data0 = some plain0 →
      verify_chunk env.sha plain0 hash = false →
      attemptLoop env url key hash compression maxA srcName
          (attempt :: restAttempts) st0 =
        (blacklistIfPeer
          { st0 with trace := st0.trace ++ [(url, attempt)] } key, none) := by
    intro key maxA srcName attempt restAttempts st0 data0 plain0 hnet0
      hdec0 hver0
    simp only [attemptLoop, hnet0, hdec0, hver0, Bool.false_eq_true,
      if_false]
  refine ⟨habandon, ?_, ?_⟩
  · intro hpeer rest
    have h1 := habandon none 6 (strCodes "cdn") 1 (List.range' 2 5) st data
      plain hnet hdec hver
    simp only [urlLoop, hpeer, tryUrl]
    rw [show (resolve_http_retry_policy false).1 = 6 from rfl,
      show List.range' 1 6 = 1 :: List.range' 2 5 from rfl, h1]
    simp [blacklistIfPeer]
  · intro key hpeer hblack rest
    have h1 := habandon (some key) 2 (strCodes "peer") 1 (List.range' 2 1)
      st data plain hnet hdec hver
    simp only [urlLoop, hpeer, tryUrl, hblack, Bool.false_eq_true, if_false]
    rw [show (resolve_http_retry_policy true).1 = 2 from rfl,
      show List.range' 1 2 = 1 :: List.range' 2 1 from rfl, h1]
    simp [blacklistIfPeer]

/-- Witness for `hash_mismatch_abandons_url` in `cdnMismatchEnv` at its
CDN URL. -/
theorem hash_mismatch_abandons_url_witness :
    urlLoop cdnMismatchEnv (strCodes "aa11") (strCodes "none")
        [strCodes "u"] ⟨[], [], []⟩ =
      urlLoop cdnMismatchEnv (strCodes "aa11") (strCodes "none") []
        ⟨[], [(strCodes "u", 1)], []⟩ := by
  have h := hash_mismatch_abandons_url cdnMismatchEnv (strCodes "u")
    (strCodes "aa11") (strCodes "none") ⟨[], [], []⟩ [0] [0]
    (by decide) (by decide) (by decide)
  exact h.2.1 (by decide) []

end Otoshi
